import Mathlib

/-!
Verification of the `yang` command-line front end (`yang.go`).

The program is embedded shallowly: the single `main` function is modelled as a
pure function from the parsed command-line flags and an oracle describing the
outcomes of all external interactions (trace-file creation, standard-input
reading, per-file reads, the schema library's `Parse`/`Process`/`GetModule`
calls and the resulting module map) to the ordered list of observable events
the process performs together with its exit status.  The format registry and
the top-level entry resolution loop are translated directly from the source.
-/

namespace Goyang

/-! ### String ordering and suffix test (Go `sort.Strings`, `strings.HasSuffix`) -/

/-- Lexicographic comparison of character lists by code point, the order
`sort.Strings` uses on the byte representation of names. -/
def charsLe : List Char → List Char → Bool
  | [], _ => true
  | _ :: _, [] => false
  | a :: as, b :: bs =>
    if a.toNat < b.toNat then true
    else if b.toNat < a.toNat then false
    else charsLe as bs

/-- Lexicographic order on strings, via their character lists. -/
def strLe (a b : String) : Bool := charsLe a.data b.data

/-- The ordering relation used for sorting format and module names. -/
def strLeRel (a b : String) : Prop := strLe a b = true

instance : DecidableRel strLeRel :=
  fun a b => inferInstanceAs (Decidable (strLe a b = true))

/-- Model of Go `sort.Strings`: produce the `strLeRel`-sorted permutation. -/
def sortStrings (l : List String) : List String := List.insertionSort strLeRel l

/-- Model of Go `strings.HasSuffix`. -/
def goHasSuffix (s suffix : String) : Bool := suffix.data.isSuffixOf s.data

/-! ### Data model -/

/-- One parsed top-level module record of the schema library (`yang.Module`):
for this layer only its name and an identity tag distinguishing records parsed
from different sources are relevant. -/
structure Module where
  name : String
  uid : Nat
deriving DecidableEq, Repr

/-- A resolved tree (`yang.Entry`): either produced by `yang.ToEntry` from a
module record, or an opaque tree returned by `yang.GetModule`. -/
inductive Entry where
  | ofModule : Module → Entry
  | ext : Nat → Entry
deriving DecidableEq, Repr

/-- A registered output formatter (`formatter` struct): its name, an identity
tag standing for its render function `f`, and its help text. -/
structure Formatter where
  name : String
  fid : Nat
  help : String
deriving DecidableEq, Repr

/-- The format registry (`var formatters = map[string]*formatter`), as an
association list with unique keys. -/
abbrev Registry := List (String × Formatter)

/-- Model of `register`: `formatters[f.name] = f` — overwrite the entry for the name if
present, otherwise add a new one. -/
def register (regs : Registry) (f : Formatter) : Registry :=
  if (regs.find? (fun p => p.1 = f.name)).isSome then
    regs.map (fun p => if p.1 = f.name then (f.name, f) else p)
  else regs ++ [(f.name, f)]

/-- Map lookup `formatters[name]`. -/
def lookupFmt (regs : Registry) (n : String) : Option Formatter :=
  (regs.find? (fun p => p.1 = n)).map Prod.snd

/-! ### Observable events of a run -/

/-- One observable action of the process, in program order. -/
inductive Event where
  | traceStart : Event
  | traceStop : Event
  | errLine : String → Event
  | errWrite : String → Event
  | readStdin : Event
  | readFileEv : String → Event
  | getModuleEv : String → List String → Event
  | processEv : Event
  | render : Nat → List Entry → Event
  | writeEntry : Entry → Event
  | panicEv : Event
deriving DecidableEq, Repr

/-- Events that write to standard output. -/
def Event.isStdout : Event → Bool
  | .render _ _ => true
  | .writeEntry _ => true
  | _ => false

/-- Events that load input (stdin, a named file, or a named-module request). -/
def Event.isLoad : Event → Bool
  | .readStdin => true
  | .readFileEv _ => true
  | .getModuleEv _ _ => true
  | _ => false

/-- Events that invoke a registered formatter's render function. -/
def Event.isRender : Event → Bool
  | .render _ _ => true
  | _ => false

/-! ### Flags and external-world oracle -/

/-- The flag values after `getopt.Parse()` together with the positional
arguments (`getopt.Args()`). -/
structure Flags where
  format : String
  traceP : String
  help : Bool
  args : List String
deriving Repr

/-- Outcomes of the external interactions of one run: trace-file creation,
reading standard input, `ms.Parse` on the stdin text, `ms.Read` on each named
file, `ms.Process()`, the final module map `ms.Modules` (as its iteration
sequence), and `yang.GetModule`. -/
structure Oracle where
  createTraceErr : Option String
  stdinData : Except String String
  stdinParseErr : String → Option String
  readErr : String → Option String
  processErrs : List String
  msModules : List Module
  getModuleRes : String → List String → Entry × List String

/-! ### Messages -/

/-- Stand-in for the text `getopt.CommandLine.PrintUsage` emits. -/
def usageMsg : String := "Usage: yang"

/-- The per-format help line printed by the `--help` loop. -/
def helpLine (f : Formatter) : String := "    " ++ f.name ++ " - " ++ f.help

/-- The message of the invalid-format exit. -/
def invalidFormatMsg (format : String) (formats : List String) : String :=
  format ++ ": invalid format.  Choices are " ++ String.intercalate ", " formats

/-- The events of the `--help` branch: usage, the `Formats:` header, then one
line per registered format in sorted name order. -/
def helpEvents (regs : Registry) (formats : List String) : List Event :=
  Event.errWrite usageMsg :: Event.errWrite "\nFormats:\n" ::
    formats.filterMap (fun n => (lookupFmt regs n).map (fun f => Event.errWrite (helpLine f)))

/-! ### Entry resolution (lines 157-172 of yang.go) -/

/-- One iteration of the top-level module collection loop: record `m` under its
name unless that name was already seen (`if mods[m.Name] == nil`), also
appending the name to the `names` list (kept here as the key order). -/
def step (acc : List (String × Module)) (m : Module) : List (String × Module) :=
  if (acc.find? (fun p => p.1 = m.name)).isSome then acc
  else acc ++ [(m.name, m)]

/-- The loop `for _, m := range ms.Modules` collecting the first module record
per distinct name, with the names in first-seen order as the keys. -/
def collectTop (mods : List Module) : List (String × Module) :=
  mods.foldl step []

/-- The call `sort.Strings(names)`. -/
def topNames (mods : List Module) : List String :=
  sortStrings ((collectTop mods).map Prod.fst)

/-- The conversion `yang.ToEntry(mods[n])` for one sorted name. -/
def entryFor (mods : List Module) (n : String) : Entry :=
  match (collectTop mods).find? (fun p => p.1 = n) with
  | some p => Entry.ofModule p.2
  | none => Entry.ofModule ⟨n, 0⟩

/-- The `entries` slice handed to the formatter. -/
def mainEntries (mods : List Module) : List Entry :=
  (topNames mods).map (entryFor mods)

/-- The name a resolved entry displays. -/
def entryName : Entry → String
  | .ofModule m => m.name
  | .ext _ => ""

/-! ### The run itself -/

/-- A finished run: the events in order, and the exit status. -/
structure RunResult where
  events : List Event
  exitCode : Nat
deriving Repr

/-- The stdin block (lines 136-145): read all of standard input, parse it as
`<STDIN>`; on either failure print the error (the run then stops with 1). -/
def stdinStep (o : Oracle) : List Event × Bool :=
  match o.stdinData with
  | .error e => ([Event.readStdin, Event.errLine e], false)
  | .ok data =>
    match o.stdinParseErr data with
    | some e => ([Event.readStdin, Event.errLine e], false)
    | none => ([Event.readStdin], true)

/-- The file loop (lines 147-152): read each named file, printing the error and
continuing on failure. -/
def loadEvents (o : Oracle) (files : List String) : List Event :=
  files.flatMap (fun n =>
    Event.readFileEv n ::
      (match o.readErr n with
       | some e => [Event.errLine e]
       | none => []))

/-- Lines 147-174: the file loop, `exitIfError(ms.Process())`, entry resolution
and the final `formatters[format].f(os.Stdout, entries)` dispatch.  The `none`
branch is the nil-map-entry panic Go would raise were the format missing at
dispatch time. -/
def afterLoad (regs : Registry) (format : String) (o : Oracle) (pre : List Event)
    (files : List String) : List Event × Nat :=
  let levs := loadEvents o files
  if o.processErrs.isEmpty then
    match lookupFmt regs format with
    | some f =>
        (pre ++ levs ++ [Event.processEv, Event.render f.fid (mainEntries o.msModules)], 0)
    | none => (pre ++ levs ++ [Event.processEv, Event.panicEv], 2)
  else (pre ++ levs ++ Event.processEv :: o.processErrs.map Event.errLine, 1)

/-- Lines 124-129: the named-module branch — `yang.GetModule`, `exitIfError`,
then `Write(os.Stdout, e)` and return. -/
def namedBody (o : Oracle) (f0 : String) (rest : List String) : List Event × Nat :=
  let r := o.getModuleRes f0 rest
  if r.2.isEmpty then ([Event.getModuleEv f0 rest, Event.writeEntry r.1], 0)
  else (Event.getModuleEv f0 rest :: r.2.map Event.errLine, 1)

/-- Lines 134-174: stdin when there are no positional arguments, else the file
loop; then processing and dispatch. -/
def fileListBody (regs : Registry) (format : String) (o : Oracle)
    (files : List String) : List Event × Nat :=
  match files with
  | [] =>
    let s := stdinStep o
    if s.2 then afterLoad regs format o s.1 []
    else (s.1, 1)
  | f0 :: rest => afterLoad regs format o [] (f0 :: rest)

/-- Lines 106-174: the help branch, the format validation, then the input-mode
decision on the positional arguments. -/
def coreBody (regs : Registry) (fl : Flags) (o : Oracle)
    (formats : List String) : List Event × Nat :=
  if fl.help then (helpEvents regs formats, 0)
  else if (lookupFmt regs fl.format).isSome then
    match fl.args with
    | [] => fileListBody regs fl.format o []
    | f0 :: rest =>
      if goHasSuffix f0 ".yang" then fileListBody regs fl.format o (f0 :: rest)
      else namedBody o f0 rest
  else ([Event.errWrite (invalidFormatMsg fl.format formats)], 1)

/-- Model of `main`: compute the sorted format-name list, set up tracing when requested
(redirecting every `stop` through `trace.Stop` and deferring a final
`trace.Stop`), then run the body.  A failed trace-file creation prints the
error and exits 1 before tracing starts. -/
def runMain (regs : Registry) (fl : Flags) (o : Oracle) : RunResult :=
  let formats := sortStrings (regs.map Prod.fst)
  if fl.traceP = "" then
    let b := coreBody regs fl o formats
    ⟨b.1, b.2⟩
  else
    match o.createTraceErr with
    | some e => ⟨[Event.errLine e], 1⟩
    | none =>
      let b := coreBody regs fl o formats
      ⟨Event.traceStart :: b.1 ++ [Event.traceStop], b.2⟩

/-- Modelled from the spec: the external collaborator `yang.GetModule` (its
implementation lives in the schema library, not in this repository's source
slice).  It resolves a module name first against the auxiliary files, then
falls back to the definitions of the conventional `MODULES.yang` default file,
and reports an error batch when the name is still unresolved. -/
def getModuleSpec (auxDefs : String → Option Module)
    (defaultDefs : String → Option Module) (name : String) : Entry × List String :=
  match auxDefs name with
  | some m => (Entry.ofModule m, [])
  | none =>
    match defaultDefs name with
    | some m => (Entry.ofModule m, [])
    | none => (Entry.ext 0, ["no such module: " ++ name])

/-- The condition under which a run takes the file-list or stdin path and gets
past the stdin block: no positional arguments with standard input parsing
cleanly, or a first positional argument ending in `.yang`. -/
def fileListMode (fl : Flags) (o : Oracle) : Prop :=
  match fl.args with
  | [] => (stdinStep o).2 = true
  | f0 :: _ => goHasSuffix f0 ".yang" = true

/-- The events before the body: `trace.Start` when tracing is on. -/
def openEvs (fl : Flags) : List Event :=
  if fl.traceP = "" then [] else [Event.traceStart]

/-- The events after the body: the guaranteed `trace.Stop` when tracing is on. -/
def closeEvs (fl : Flags) : List Event :=
  if fl.traceP = "" then [] else [Event.traceStop]

/-- The events preceding the file loop: the stdin block when there are no
positional arguments, nothing otherwise. -/
def stdinPre (fl : Flags) (o : Oracle) : List Event :=
  match fl.args with
  | [] => (stdinStep o).1
  | _ :: _ => []

/-! ### Concrete demonstration inputs for the witnesses -/

/-- A demonstration formatter registered under the name `tree`. -/
def demoFmt : Formatter := ⟨"tree", 0, "display in a tree format"⟩

/-- A registry holding just the demonstration formatter. -/
def demoRegs : Registry := register [] demoFmt

/-- An oracle in which every external interaction succeeds; the module map
holds two records named `b` and one named `a`. -/
def demoOracle : Oracle where
  createTraceErr := none
  stdinData := Except.ok "module a"
  stdinParseErr := fun _ => none
  readErr := fun _ => none
  processErrs := []
  msModules := [⟨"b", 0⟩, ⟨"a", 1⟩, ⟨"b", 2⟩]
  getModuleRes := fun _ _ => (Entry.ext 7, [])

/-- File-list mode flags. -/
def fileFlags : Flags := ⟨"tree", "", false, ["b.yang", "a.yang"]⟩

/-- Named-module mode flags. -/
def namedFlags : Flags := ⟨"tree", "", false, ["mymod", "dep.yang"]⟩

/-- Stdin mode flags. -/
def stdinFlags : Flags := ⟨"tree", "", false, []⟩

/-- Oracle in which each file read fails and the module map stays empty. -/
def readFailOracle : Oracle :=
  { demoOracle with
      readErr := fun n => some (n ++ ": no such file or directory")
      msModules := [] }

/-- Oracle in which semantic processing reports two errors. -/
def processErrOracle : Oracle :=
  { demoOracle with processErrs := ["a.yang:1: import not found", "b.yang:4: bad type"] }

/-- Oracle in which parsing standard input fails. -/
def stdinFailOracle : Oracle :=
  { demoOracle with stdinParseErr := fun _ => some "<STDIN>:1:1: syntax error" }

/-- Oracle in which creating the trace file fails. -/
def traceFailOracle : Oracle :=
  { demoOracle with createTraceErr := some "open trace.out: permission denied" }

/-- Flags with both `--help` and `--trace` supplied. -/
def helpTraceFlags : Flags := ⟨"tree", "trace.out", true, []⟩

/-- Flags with `--help` together with an unregistered format and an argument. -/
def helpFlags : Flags := ⟨"bogus", "", true, ["a.yang"]⟩

/-- Flags requesting an unregistered format. -/
def badFmtFlags : Flags := ⟨"bogus", "", false, ["a.yang"]⟩

/-- Flags with tracing requested. -/
def traceFlags : Flags := ⟨"tree", "trace.out", false, []⟩

/-- A second formatter with the same name as `demoFmt`. -/
def demoFmt2 : Formatter := ⟨"tree", 1, "alternate tree renderer"⟩

/-! ### The string order is total and transitive -/

theorem charsLe_trans :
    ∀ a b c : List Char, charsLe a b = true → charsLe b c = true → charsLe a c = true
  | [], _, _, _, _ => rfl
  | _ :: _, [], _, h1, _ => by simp [charsLe] at h1
  | _ :: _, _ :: _, [], _, h2 => by simp [charsLe] at h2
  | x :: xs, y :: ys, z :: zs, h1, h2 => by
    simp only [charsLe] at h1 h2 ⊢
    rcases Nat.lt_trichotomy x.toNat y.toNat with hxy | hxy | hxy
    · rcases Nat.lt_trichotomy y.toNat z.toNat with hyz | hyz | hyz
      · simp [Nat.lt_trans hxy hyz]
      · simp [hyz ▸ hxy]
      · rw [if_neg (Nat.lt_asymm hyz), if_pos hyz] at h2
        exact absurd h2 (by simp)
    · rw [hxy]
      rw [if_neg (hxy ▸ Nat.lt_irrefl x.toNat), if_neg (hxy ▸ Nat.lt_irrefl x.toNat)] at h1
      rcases Nat.lt_trichotomy y.toNat z.toNat with hyz | hyz | hyz
      · simp [hyz]
      · rw [hyz] at h2 ⊢
        rw [if_neg (Nat.lt_irrefl _), if_neg (Nat.lt_irrefl _)] at h2
        simp only [if_neg (Nat.lt_irrefl _)]
        exact charsLe_trans xs ys zs h1 h2
      · rw [if_neg (Nat.lt_asymm hyz), if_pos hyz] at h2
        exact absurd h2 (by simp)
    · rw [if_neg (Nat.lt_asymm hxy), if_pos hxy] at h1
      exact absurd h1 (by simp)

theorem charsLe_total : ∀ a b : List Char, charsLe a b = true ∨ charsLe b a = true
  | [], _ => Or.inl rfl
  | _ :: _, [] => Or.inr rfl
  | x :: xs, y :: ys => by
    simp only [charsLe]
    rcases Nat.lt_trichotomy x.toNat y.toNat with h | h | h
    · left; simp [h]
    · rcases charsLe_total xs ys with ih | ih
      · left
        rw [if_neg (h ▸ Nat.lt_irrefl _), if_neg (h ▸ Nat.lt_irrefl _)]
        exact ih
      · right
        rw [if_neg (h ▸ Nat.lt_irrefl _), if_neg (h ▸ Nat.lt_irrefl _)]
        exact ih
    · right; simp [h]

instance : IsTrans String strLeRel :=
  ⟨fun a b c => charsLe_trans a.data b.data c.data⟩

instance : IsTotal String strLeRel :=
  ⟨fun a b => (charsLe_total a.data b.data).imp id id⟩

theorem sortStrings_sorted (l : List String) : List.Sorted strLeRel (sortStrings l) :=
  List.sorted_insertionSort strLeRel l

theorem sortStrings_perm (l : List String) : (sortStrings l).Perm l :=
  List.perm_insertionSort strLeRel l

theorem mem_sortStrings {l : List String} {n : String} : n ∈ sortStrings l ↔ n ∈ l :=
  List.mem_insertionSort strLeRel

theorem length_sortStrings (l : List String) : (sortStrings l).length = l.length :=
  List.length_insertionSort strLeRel l

/-! ### Properties of the top-level collection loop -/

theorem find?_isSome_iff_mem_keys {acc : List (String × Module)} {n : String} :
    (acc.find? (fun p => p.1 = n)).isSome = true ↔ n ∈ acc.map Prod.fst := by
  rw [List.find?_isSome]
  constructor
  · rintro ⟨p, hp, hpn⟩
    simp only [decide_eq_true_eq] at hpn
    exact hpn ▸ List.mem_map_of_mem Prod.fst hp
  · intro hn
    rcases List.mem_map.mp hn with ⟨p, hp, hpn⟩
    exact ⟨p, hp, by simp [hpn]⟩

theorem find?_step_of_found {acc : List (String × Module)} {m : Module} {n : String}
    {q : String × Module} (h : acc.find? (fun p => p.1 = n) = some q) :
    (step acc m).find? (fun p => p.1 = n) = some q := by
  unfold step
  split
  · exact h
  · rw [List.find?_append, h]
    rfl

theorem foldl_step_find?_of_found (mods : List Module) (acc : List (String × Module))
    {n : String} {q : String × Module} (h : acc.find? (fun p => p.1 = n) = some q) :
    (mods.foldl step acc).find? (fun p => p.1 = n) = some q := by
  induction mods generalizing acc with
  | nil => exact h
  | cons m rest ih => exact ih (step acc m) (find?_step_of_found h)

theorem foldl_step_find?_of_new (mods : List Module) (acc : List (String × Module))
    {n : String} {m : Module} (hacc : acc.find? (fun p => p.1 = n) = none)
    (hfind : mods.find? (fun x => x.name = n) = some m) :
    (mods.foldl step acc).find? (fun p => p.1 = n) = some (n, m) := by
  induction mods generalizing acc with
  | nil => simp at hfind
  | cons m0 rest ih =>
    rw [List.foldl_cons]
    by_cases h0 : m0.name = n
    · have hm : m0 = m := by
        rw [List.find?_cons_of_pos _ (by simp [h0])] at hfind
        exact Option.some.inj hfind
      have hstep : step acc m0 = acc ++ [(m0.name, m0)] := by
        unfold step
        rw [if_neg (by rw [h0, hacc]; simp)]
      have hfound : (step acc m0).find? (fun p => p.1 = n) = some (n, m) := by
        rw [hstep, List.find?_append, hacc, h0, hm]
        simp
      exact foldl_step_find?_of_found rest (step acc m0) hfound
    · have hrest : rest.find? (fun x => x.name = n) = some m := by
        rw [List.find?_cons_of_neg _ (by simp [h0])] at hfind
        exact hfind
      have hnone : (step acc m0).find? (fun p => p.1 = n) = none := by
        unfold step
        split
        · exact hacc
        · rw [List.find?_append, hacc]
          simp [h0]
      exact ih (step acc m0) hnone hrest

theorem mem_keys_step {acc : List (String × Module)} {m0 : Module} {k : String} :
    k ∈ (step acc m0).map Prod.fst ↔ k ∈ acc.map Prod.fst ∨ k = m0.name := by
  unfold step
  split
  · rename_i hs
    constructor
    · exact Or.inl
    · rintro (h | rfl)
      · exact h
      · exact find?_isSome_iff_mem_keys.mp hs
  · simp [List.map_append]

theorem mem_keys_foldl_step (mods : List Module) (acc : List (String × Module)) (n : String) :
    n ∈ (mods.foldl step acc).map Prod.fst ↔
      n ∈ acc.map Prod.fst ∨ n ∈ mods.map Module.name := by
  induction mods generalizing acc with
  | nil => simp
  | cons m0 rest ih =>
    rw [List.foldl_cons, ih (step acc m0), mem_keys_step]
    simp only [List.map_cons, List.mem_cons]
    tauto

theorem nodup_keys_foldl_step (mods : List Module) (acc : List (String × Module))
    (h : (acc.map Prod.fst).Nodup) : ((mods.foldl step acc).map Prod.fst).Nodup := by
  induction mods generalizing acc with
  | nil => exact h
  | cons m0 rest ih =>
    refine ih (step acc m0) ?_
    unfold step
    split
    · exact h
    · rename_i hs
      rw [List.map_append, List.nodup_append]
      refine ⟨h, by simp, ?_⟩
      intro k hk hk2
      simp only [List.map_cons, List.map_nil, List.mem_singleton] at hk2
      subst hk2
      exact hs (find?_isSome_iff_mem_keys.mpr hk)

theorem collectTop_keys_mem {mods : List Module} {n : String} :
    n ∈ (collectTop mods).map Prod.fst ↔ n ∈ mods.map Module.name := by
  unfold collectTop
  rw [mem_keys_foldl_step]
  simp

theorem collectTop_keys_nodup (mods : List Module) :
    ((collectTop mods).map Prod.fst).Nodup :=
  nodup_keys_foldl_step mods [] (by simp)

theorem collectTop_find? {mods : List Module} {n : String} {m : Module}
    (h : mods.find? (fun x => x.name = n) = some m) :
    (collectTop mods).find? (fun p => p.1 = n) = some (n, m) :=
  foldl_step_find?_of_new mods [] rfl h

theorem exists_find?_of_mem_names {mods : List Module} {n : String}
    (h : n ∈ mods.map Module.name) :
    ∃ m : Module, mods.find? (fun x => x.name = n) = some m := by
  have hs : (mods.find? (fun x => x.name = n)).isSome = true := by
    rw [List.find?_isSome]
    rcases List.mem_map.mp h with ⟨m, hm, rfl⟩
    exact ⟨m, hm, by simp⟩
  exact Option.isSome_iff_exists.mp hs

theorem name_of_find? {mods : List Module} {n : String} {m : Module}
    (h : mods.find? (fun x => x.name = n) = some m) : m.name = n := by
  have hp := List.find?_some h
  simpa using hp

theorem entryFor_eq {mods : List Module} {n : String} {m : Module}
    (h : mods.find? (fun x => x.name = n) = some m) :
    entryFor mods n = Entry.ofModule m := by
  unfold entryFor
  rw [collectTop_find? h]

theorem mainEntries_names (mods : List Module) :
    (mainEntries mods).map entryName = topNames mods := by
  unfold mainEntries
  rw [List.map_map]
  have hpt : ∀ n ∈ topNames mods, (entryName ∘ entryFor mods) n = id n := by
    intro n hn
    have hmem : n ∈ mods.map Module.name := by
      rw [topNames, mem_sortStrings] at hn
      exact collectTop_keys_mem.mp hn
    rcases exists_find?_of_mem_names hmem with ⟨m, hm⟩
    simp only [Function.comp_apply, entryFor_eq hm, entryName, id]
    exact name_of_find? hm
  rw [List.map_congr_left hpt, List.map_id]

theorem length_mainEntries (mods : List Module) :
    (mainEntries mods).length = (mods.map Module.name).toFinset.card := by
  unfold mainEntries topNames
  rw [List.length_map, length_sortStrings]
  have hset : ((collectTop mods).map Prod.fst).toFinset = (mods.map Module.name).toFinset := by
    ext k
    simp only [List.mem_toFinset]
    exact collectTop_keys_mem
  rw [← hset, List.toFinset_card_of_nodup (collectTop_keys_nodup mods)]

theorem mainEntries_sorted (mods : List Module) :
    List.Sorted strLeRel ((mainEntries mods).map entryName) := by
  rw [mainEntries_names]
  exact sortStrings_sorted _

theorem mem_mainEntries_of_mem_names {mods : List Module} {n : String}
    (h : n ∈ mods.map Module.name) :
    ∃ m : Module, mods.find? (fun x => x.name = n) = some m ∧
      Entry.ofModule m ∈ mainEntries mods := by
  rcases exists_find?_of_mem_names h with ⟨m, hm⟩
  refine ⟨m, hm, ?_⟩
  have hn : n ∈ topNames mods := by
    rw [topNames, mem_sortStrings]
    exact collectTop_keys_mem.mpr h
  have := List.mem_map_of_mem (entryFor mods) hn
  rwa [entryFor_eq hm] at this

theorem mem_mainEntries_elim {mods : List Module} {e : Entry}
    (h : e ∈ mainEntries mods) :
    ∃ m : Module, e = Entry.ofModule m ∧
      mods.find? (fun x => x.name = m.name) = some m := by
  rcases List.mem_map.mp h with ⟨n, hn, rfl⟩
  have hmem : n ∈ mods.map Module.name := by
    rw [topNames, mem_sortStrings] at hn
    exact collectTop_keys_mem.mp hn
  rcases exists_find?_of_mem_names hmem with ⟨m, hm⟩
  refine ⟨m, entryFor_eq hm, ?_⟩
  rw [name_of_find? hm]
  exact hm

/-! ### Run-shape lemmas -/


theorem runMain_shape (regs : Registry) (fl : Flags) (o : Oracle)
    (htrace : fl.traceP = "" ∨ o.createTraceErr = none) :
    (runMain regs fl o).events =
      openEvs fl ++ (coreBody regs fl o (sortStrings (regs.map Prod.fst))).1 ++ closeEvs fl ∧
    (runMain regs fl o).exitCode = (coreBody regs fl o (sortStrings (regs.map Prod.fst))).2 := by
  by_cases h : fl.traceP = ""
  · simp [runMain, openEvs, closeEvs, h]
  · rcases htrace with h2 | h2
    · exact absurd h2 h
    · simp [runMain, openEvs, closeEvs, h, h2]

theorem coreBody_help {regs : Registry} {fl : Flags} {o : Oracle} {formats : List String}
    (h : fl.help = true) :
    coreBody regs fl o formats = (helpEvents regs formats, 0) := by
  simp [coreBody, h]

theorem coreBody_badFormat {regs : Registry} {fl : Flags} {o : Oracle} {formats : List String}
    (h1 : fl.help = false) (h2 : lookupFmt regs fl.format = none) :
    coreBody regs fl o formats =
      ([Event.errWrite (invalidFormatMsg fl.format formats)], 1) := by
  simp [coreBody, h1, h2]

theorem coreBody_stdin {regs : Registry} {fl : Flags} {o : Oracle} {formats : List String}
    (h1 : fl.help = false) (h2 : (lookupFmt regs fl.format).isSome = true)
    (h3 : fl.args = []) :
    coreBody regs fl o formats = fileListBody regs fl.format o [] := by
  simp [coreBody, h1, h2, h3]

theorem coreBody_files {regs : Registry} {fl : Flags} {o : Oracle} {formats : List String}
    {f0 : String} {rest : List String} (h1 : fl.help = false)
    (h2 : (lookupFmt regs fl.format).isSome = true) (h3 : fl.args = f0 :: rest)
    (h4 : goHasSuffix f0 ".yang" = true) :
    coreBody regs fl o formats = fileListBody regs fl.format o (f0 :: rest) := by
  simp [coreBody, h1, h2, h3, h4]

theorem coreBody_named {regs : Registry} {fl : Flags} {o : Oracle} {formats : List String}
    {f0 : String} {rest : List String} (h1 : fl.help = false)
    (h2 : (lookupFmt regs fl.format).isSome = true) (h3 : fl.args = f0 :: rest)
    (h4 : goHasSuffix f0 ".yang" = false) :
    coreBody regs fl o formats = namedBody o f0 rest := by
  simp [coreBody, h1, h2, h3, h4]

theorem fileListBody_stdin_ok {regs : Registry} {format : String} {o : Oracle}
    (h : (stdinStep o).2 = true) :
    fileListBody regs format o [] = afterLoad regs format o (stdinStep o).1 [] := by
  simp [fileListBody, h]

theorem fileListBody_stdin_fail {regs : Registry} {format : String} {o : Oracle}
    (h : (stdinStep o).2 = false) :
    fileListBody regs format o [] = ((stdinStep o).1, 1) := by
  simp [fileListBody, h]

theorem afterLoad_ok {regs : Registry} {format : String} {o : Oracle} {pre : List Event}
    {files : List String} {f : Formatter} (hf : lookupFmt regs format = some f)
    (hp : o.processErrs = []) :
    afterLoad regs format o pre files =
      (pre ++ loadEvents o files ++
        [Event.processEv, Event.render f.fid (mainEntries o.msModules)], 0) := by
  simp [afterLoad, hf, hp]

theorem afterLoad_errs {regs : Registry} {format : String} {o : Oracle} {pre : List Event}
    {files : List String} (hp : o.processErrs ≠ []) :
    afterLoad regs format o pre files =
      (pre ++ loadEvents o files ++ Event.processEv :: o.processErrs.map Event.errLine, 1) := by
  simp only [afterLoad]
  rw [if_neg (by simpa [List.isEmpty_iff] using hp)]

/-! ### Event-class lemmas -/

theorem loadEvents_no_stdout {o : Oracle} {files : List String} :
    ∀ ev ∈ loadEvents o files, ev.isStdout = false := by
  induction files with
  | nil => simp [loadEvents]
  | cons n rest ih =>
    intro ev hev
    simp only [loadEvents, List.flatMap_cons] at hev
    rcases List.mem_append.mp hev with h | h
    · rcases List.mem_cons.mp h with rfl | h2
      · rfl
      · rcases hr : o.readErr n with _ | e
        · rw [hr] at h2; simp at h2
        · rw [hr] at h2
          rcases List.mem_singleton.mp h2 with rfl
          rfl
    · exact ih ev h

theorem loadEvents_filter_isLoad {o : Oracle} {files : List String} :
    (loadEvents o files).filter Event.isLoad = files.map Event.readFileEv := by
  induction files with
  | nil => simp [loadEvents]
  | cons n rest ih =>
    simp only [loadEvents, List.flatMap_cons, List.filter_append] at ih ⊢
    rw [ih]
    rcases hr : o.readErr n with _ | e <;>
      simp [List.filter_cons, Event.isLoad]

theorem loadEvents_errLine_of_readErr {o : Oracle} {files : List String} {n : String}
    {e : String} (hn : n ∈ files) (he : o.readErr n = some e) :
    Event.errLine e ∈ loadEvents o files := by
  induction files with
  | nil => simp at hn
  | cons n0 rest ih =>
    simp only [loadEvents, List.flatMap_cons, List.mem_append]
    rcases List.mem_cons.mp hn with rfl | h
    · left
      rw [he]
      simp
    · right
      exact ih h

theorem stdinStep_no_stdout {o : Oracle} :
    ∀ ev ∈ (stdinStep o).1, ev.isStdout = false := by
  unfold stdinStep
  rcases o.stdinData with e | data
  · intro ev hev
    rcases List.mem_cons.mp hev with rfl | h
    · rfl
    · rcases List.mem_singleton.mp h with rfl
      rfl
  · rcases hp : o.stdinParseErr data with _ | e <;>
      · intro ev hev
        simp only [hp] at hev
        first
        | rcases List.mem_singleton.mp hev with rfl; rfl
        | rcases List.mem_cons.mp hev with rfl | h
          · rfl
          · rcases List.mem_singleton.mp h with rfl; rfl

theorem stdinStep_filter_isLoad {o : Oracle} :
    ((stdinStep o).1).filter Event.isLoad = [Event.readStdin] := by
  unfold stdinStep
  rcases hd : o.stdinData with e | data
  · simp [Event.isLoad]
  · rcases hp : o.stdinParseErr data with _ | e <;> simp [hp, Event.isLoad]

theorem stdinStep_no_load_after_fail {o : Oracle} :
    ∀ ev ∈ (stdinStep o).1, ev.isLoad = true → ev = Event.readStdin := by
  unfold stdinStep
  rcases hd : o.stdinData with e | data
  · intro ev hev _
    simp only [List.mem_cons, List.mem_singleton] at hev
    rcases hev with rfl | rfl | h
    · rfl
    · simp [Event.isLoad] at *
    · simp at h
  · rcases hp : o.stdinParseErr data with _ | e
    · intro ev hev _
      simp only [hp, List.mem_singleton] at hev
      rcases hev with rfl
      rfl
    · intro ev hev _
      simp only [hp, List.mem_cons, List.mem_singleton] at hev
      rcases hev with rfl | rfl | h
      · rfl
      · simp [Event.isLoad] at *
      · simp at h

theorem helpEvents_no_load {regs : Registry} {formats : List String} :
    ∀ ev ∈ helpEvents regs formats, ev.isLoad = false := by
  intro ev hev
  simp only [helpEvents, List.mem_cons] at hev
  rcases hev with rfl | hev
  · rfl
  rcases hev with rfl | hev
  · rfl
  rcases List.mem_filterMap.mp hev with ⟨n, _, hn⟩
  rcases ho : lookupFmt regs n with _ | f
  · rw [ho] at hn; simp at hn
  · rw [ho] at hn
    have hn2 : Event.errWrite (helpLine f) = ev := Option.some.inj hn
    rw [← hn2]
    rfl

theorem helpEvents_no_stdout {regs : Registry} {formats : List String} :
    ∀ ev ∈ helpEvents regs formats, ev.isStdout = false := by
  intro ev hev
  simp only [helpEvents, List.mem_cons] at hev
  rcases hev with rfl | hev
  · rfl
  rcases hev with rfl | hev
  · rfl
  rcases List.mem_filterMap.mp hev with ⟨n, _, hn⟩
  rcases ho : lookupFmt regs n with _ | f
  · rw [ho] at hn; simp at hn
  · rw [ho] at hn
    have hn2 : Event.errWrite (helpLine f) = ev := Option.some.inj hn
    rw [← hn2]
    rfl

theorem openEvs_flat {fl : Flags} :
    ∀ ev ∈ openEvs fl, ev.isStdout = false ∧ ev.isLoad = false ∧ ev ≠ Event.panicEv := by
  unfold openEvs
  split <;> intro ev hev
  · simp at hev
  · rcases List.mem_singleton.mp hev with rfl
    exact ⟨rfl, rfl, by simp⟩

theorem closeEvs_flat {fl : Flags} :
    ∀ ev ∈ closeEvs fl, ev.isStdout = false ∧ ev.isLoad = false ∧ ev ≠ Event.panicEv := by
  unfold closeEvs
  split <;> intro ev hev
  · simp at hev
  · rcases List.mem_singleton.mp hev with rfl
    exact ⟨rfl, rfl, by simp⟩

theorem loadEvents_shape {o : Oracle} {files : List String} :
    ∀ ev ∈ loadEvents o files,
      (∃ n, ev = Event.readFileEv n) ∨ (∃ e, ev = Event.errLine e) := by
  induction files with
  | nil => simp [loadEvents]
  | cons n rest ih =>
    intro ev hev
    simp only [loadEvents, List.flatMap_cons, List.mem_append, List.mem_cons] at hev
    rcases hev with (rfl | h) | h
    · exact Or.inl ⟨n, rfl⟩
    · rcases hr : o.readErr n with _ | e
      · rw [hr] at h; simp at h
      · rw [hr] at h
        rcases List.mem_singleton.mp h with rfl
        exact Or.inr ⟨e, rfl⟩
    · exact ih ev h

theorem stdinStep_shape {o : Oracle} :
    ∀ ev ∈ (stdinStep o).1, ev = Event.readStdin ∨ ∃ e, ev = Event.errLine e := by
  unfold stdinStep
  rcases hd : o.stdinData with e | data
  · intro ev hev
    simp only [List.mem_cons, List.mem_singleton] at hev
    rcases hev with rfl | rfl | h
    · exact Or.inl rfl
    · exact Or.inr ⟨e, rfl⟩
    · simp at h
  · rcases hp : o.stdinParseErr data with _ | e
    · intro ev hev
      simp only [hp, List.mem_singleton] at hev
      rcases hev with rfl
      exact Or.inl rfl
    · intro ev hev
      simp only [hp, List.mem_cons, List.mem_singleton] at hev
      rcases hev with rfl | rfl | h
      · exact Or.inl rfl
      · exact Or.inr ⟨e, rfl⟩
      · simp at h

theorem helpEvents_shape {regs : Registry} {formats : List String} :
    ∀ ev ∈ helpEvents regs formats, ∃ s, ev = Event.errWrite s := by
  intro ev hev
  simp only [helpEvents, List.mem_cons] at hev
  rcases hev with rfl | hev
  · exact ⟨usageMsg, rfl⟩
  rcases hev with rfl | hev
  · exact ⟨"\nFormats:\n", rfl⟩
  rcases List.mem_filterMap.mp hev with ⟨n, _, hn⟩
  rcases ho : lookupFmt regs n with _ | f
  · rw [ho] at hn; simp at hn
  · rw [ho] at hn
    exact ⟨helpLine f, (Option.some.inj hn).symm⟩

theorem namedBody_shape {o : Oracle} {f0 : String} {rest : List String} :
    ∀ ev ∈ (namedBody o f0 rest).1,
      ev = Event.getModuleEv f0 rest ∨ (∃ e, ev = Event.writeEntry e) ∨
        ∃ e, ev = Event.errLine e := by
  intro ev hev
  simp only [namedBody] at hev
  by_cases hr : (o.getModuleRes f0 rest).2.isEmpty = true
  · rw [if_pos hr] at hev
    simp only [List.mem_cons, List.mem_singleton] at hev
    rcases hev with rfl | rfl | h
    · exact Or.inl rfl
    · exact Or.inr (Or.inl ⟨_, rfl⟩)
    · simp at h
  · rw [if_neg hr] at hev
    rcases List.mem_cons.mp hev with rfl | h
    · exact Or.inl rfl
    · rcases List.mem_map.mp h with ⟨e, _, rfl⟩
      exact Or.inr (Or.inr ⟨e, rfl⟩)

theorem errLine_map_shape {l : List String} :
    ∀ ev ∈ l.map Event.errLine, ∃ e, ev = Event.errLine e := by
  intro ev hev
  rcases List.mem_map.mp hev with ⟨e, _, rfl⟩
  exact ⟨e, rfl⟩


theorem coreBody_fileList {regs : Registry} {fl : Flags} {o : Oracle} {formats : List String}
    (hhelp : fl.help = false) (hsome : (lookupFmt regs fl.format).isSome = true)
    (hmode : fileListMode fl o) :
    coreBody regs fl o formats = afterLoad regs fl.format o (stdinPre fl o) fl.args := by
  rcases hargs : fl.args with _ | ⟨f0, rest⟩
  · have hok : (stdinStep o).2 = true := by
      unfold fileListMode at hmode
      rw [hargs] at hmode
      exact hmode
    rw [coreBody_stdin hhelp hsome hargs, fileListBody_stdin_ok hok]
    simp [stdinPre, hargs]
  · have hsuf : goHasSuffix f0 ".yang" = true := by
      unfold fileListMode at hmode
      rw [hargs] at hmode
      exact hmode
    rw [coreBody_files hhelp hsome hargs hsuf]
    unfold fileListBody
    simp [stdinPre, hargs]

theorem stdinPre_shape {fl : Flags} {o : Oracle} :
    ∀ ev ∈ stdinPre fl o, ev = Event.readStdin ∨ ∃ e, ev = Event.errLine e := by
  unfold stdinPre
  rcases fl.args with _ | ⟨f0, rest⟩
  · exact stdinStep_shape
  · intro ev hev
    simp at hev

/-! ### Registry registration -/

theorem find?_map_replace {regs : Registry} {s : String} {f : Formatter}
    (h : (regs.find? (fun p => p.1 = s)).isSome = true) :
    (regs.map (fun p => if p.1 = s then (s, f) else p)).find? (fun p => p.1 = s) =
      some (s, f) := by
  induction regs with
  | nil => simp at h
  | cons p rest ih =>
    by_cases hp : p.1 = s
    · simp only [List.map_cons, if_pos hp]
      rw [List.find?_cons_of_pos _ (by simp)]
    · simp only [List.map_cons, if_neg hp]
      rw [List.find?_cons_of_neg _ (by simp [hp])]
      refine ih ?_
      rw [List.find?_cons_of_neg _ (by simp [hp])] at h
      exact h

theorem lookupFmt_register_self (regs : Registry) (f : Formatter) :
    lookupFmt (register regs f) f.name = some f := by
  unfold register lookupFmt
  split
  · rename_i hs
    rw [find?_map_replace hs]
    rfl
  · rename_i hs
    rw [List.find?_append, Option.not_isSome_iff_eq_none.mp hs]
    simp

/-! ### Branch reductions for the named-module body, and absence of the
dispatch panic when the format is registered -/

theorem namedBody_ok {o : Oracle} {f0 : String} {rest : List String}
    (h : (o.getModuleRes f0 rest).2 = []) :
    namedBody o f0 rest =
      ([Event.getModuleEv f0 rest, Event.writeEntry (o.getModuleRes f0 rest).1], 0) := by
  simp [namedBody, h]

theorem namedBody_errs {o : Oracle} {f0 : String} {rest : List String}
    (h : (o.getModuleRes f0 rest).2 ≠ []) :
    namedBody o f0 rest =
      (Event.getModuleEv f0 rest ::
        (o.getModuleRes f0 rest).2.map Event.errLine, 1) := by
  simp only [namedBody]
  rw [if_neg (by simpa [List.isEmpty_iff] using h)]

theorem afterLoad_no_panic {regs : Registry} {format : String} {o : Oracle}
    {pre : List Event} {files : List String} {f : Formatter}
    (hf : lookupFmt regs format = some f)
    (hpre : ∀ ev ∈ pre, ev ≠ Event.panicEv) :
    ∀ ev ∈ (afterLoad regs format o pre files).1, ev ≠ Event.panicEv := by
  intro ev hev
  by_cases hp : o.processErrs = []
  · rw [afterLoad_ok hf hp] at hev
    rcases List.mem_append.mp hev with h | h
    · rcases List.mem_append.mp h with h | h
      · exact hpre ev h
      · rcases loadEvents_shape ev h with ⟨n, rfl⟩ | ⟨e, rfl⟩ <;> simp
    · rcases List.mem_cons.mp h with rfl | h
      · simp
      · rcases List.mem_singleton.mp h with rfl
        simp
  · rw [afterLoad_errs hp] at hev
    rcases List.mem_append.mp hev with h | h
    · rcases List.mem_append.mp h with h | h
      · exact hpre ev h
      · rcases loadEvents_shape ev h with ⟨n, rfl⟩ | ⟨e, rfl⟩ <;> simp
    · rcases List.mem_cons.mp h with rfl | h
      · simp
      · rcases errLine_map_shape ev h with ⟨e, rfl⟩
        simp

theorem coreBody_no_panic {regs : Registry} {fl : Flags} {o : Oracle}
    {formats : List String} (hsome : (lookupFmt regs fl.format).isSome = true) :
    ∀ ev ∈ (coreBody regs fl o formats).1, ev ≠ Event.panicEv := by
  rcases Option.isSome_iff_exists.mp hsome with ⟨f, hf⟩
  intro ev hev
  by_cases hh : fl.help = true
  · rw [coreBody_help hh] at hev
    rcases helpEvents_shape ev hev with ⟨s, rfl⟩
    simp
  · have hhelp : fl.help = false := by simpa using hh
    rcases hargs : fl.args with _ | ⟨f0, rest⟩
    · rw [coreBody_stdin hhelp hsome hargs] at hev
      by_cases hok : (stdinStep o).2 = true
      · rw [fileListBody_stdin_ok hok] at hev
        refine afterLoad_no_panic hf ?_ ev hev
        intro ev2 hev2
        rcases stdinStep_shape ev2 hev2 with rfl | ⟨e, rfl⟩ <;> simp
      · rw [fileListBody_stdin_fail (by simpa using hok)] at hev
        rcases stdinStep_shape ev hev with rfl | ⟨e, rfl⟩ <;> simp
    · by_cases hsuf : goHasSuffix f0 ".yang" = true
      · rw [coreBody_files hhelp hsome hargs hsuf] at hev
        unfold fileListBody at hev
        exact afterLoad_no_panic hf (by intro ev2 hev2; simp at hev2) ev hev
      · rw [coreBody_named hhelp hsome hargs (by simpa using hsuf)] at hev
        rcases namedBody_shape ev hev with rfl | ⟨e, rfl⟩ | ⟨e, rfl⟩ <;> simp

theorem runMain_no_panic {regs : Registry} {fl : Flags} {o : Oracle}
    (hsome : (lookupFmt regs fl.format).isSome = true) :
    Event.panicEv ∉ (runMain regs fl o).events := by
  intro hmem
  by_cases ht : fl.traceP = ""
  · obtain ⟨hev, -⟩ := runMain_shape regs fl o (Or.inl ht)
    rw [hev] at hmem
    simp only [List.mem_append] at hmem
    rcases hmem with (h | h) | h
    · exact (openEvs_flat Event.panicEv h).2.2 rfl
    · exact coreBody_no_panic hsome Event.panicEv h rfl
    · exact (closeEvs_flat Event.panicEv h).2.2 rfl
  · rcases hc : o.createTraceErr with _ | e
    · obtain ⟨hev, -⟩ := runMain_shape regs fl o (Or.inr hc)
      rw [hev] at hmem
      simp only [List.mem_append] at hmem
      rcases hmem with (h | h) | h
      · exact (openEvs_flat Event.panicEv h).2.2 rfl
      · exact coreBody_no_panic hsome Event.panicEv h rfl
      · exact (closeEvs_flat Event.panicEv h).2.2 rfl
    · have : (runMain regs fl o).events = [Event.errLine e] := by
        simp [runMain, ht, hc]
      rw [this] at hmem
      simp at hmem

theorem mem_runMain_body {regs : Registry} {fl : Flags} {o : Oracle} {ev : Event}
    (htrace : fl.traceP = "" ∨ o.createTraceErr = none)
    (h : ev ∈ (coreBody regs fl o (sortStrings (regs.map Prod.fst))).1) :
    ev ∈ (runMain regs fl o).events := by
  obtain ⟨hev, -⟩ := runMain_shape regs fl o htrace
  rw [hev]
  simp [List.mem_append, h]

theorem runMain_forall {regs : Registry} {fl : Flags} {o : Oracle}
    (htrace : fl.traceP = "" ∨ o.createTraceErr = none) (p : Event → Prop)
    (hopen : p Event.traceStart) (hclose : p Event.traceStop)
    (hbody : ∀ ev ∈ (coreBody regs fl o (sortStrings (regs.map Prod.fst))).1, p ev) :
    ∀ ev ∈ (runMain regs fl o).events, p ev := by
  obtain ⟨hev, -⟩ := runMain_shape regs fl o htrace
  rw [hev]
  intro ev hm
  rcases List.mem_append.mp hm with h | h
  · rcases List.mem_append.mp h with h | h
    · unfold openEvs at h
      split at h
      · simp at h
      · rcases List.mem_singleton.mp h with rfl
        exact hopen
    · exact hbody ev h
  · unfold closeEvs at h
    split at h
    · simp at h
    · rcases List.mem_singleton.mp h with rfl
      exact hclose

theorem stdinPre_no_stdout {fl : Flags} {o : Oracle} :
    ∀ ev ∈ stdinPre fl o, ev.isStdout = false := by
  intro ev hev
  rcases stdinPre_shape ev hev with rfl | ⟨e, rfl⟩ <;> rfl

theorem afterLoad_errs_no_stdout {regs : Registry} {format : String} {o : Oracle}
    {pre : List Event} {files : List String} (hp : o.processErrs ≠ [])
    (hpre : ∀ ev ∈ pre, ev.isStdout = false) :
    ∀ ev ∈ (afterLoad regs format o pre files).1, ev.isStdout = false := by
  intro ev hev
  rw [afterLoad_errs hp] at hev
  rcases List.mem_append.mp hev with h | h
  · rcases List.mem_append.mp h with h | h
    · exact hpre ev h
    · exact loadEvents_no_stdout ev h
  · rcases List.mem_cons.mp h with rfl | h
    · rfl
    · rcases errLine_map_shape ev h with ⟨e, rfl⟩
      rfl


theorem fileListMode_of_files {fl : Flags} {o : Oracle} {f0 : String} {rest : List String}
    (hargs : fl.args = f0 :: rest) (hsuf : goHasSuffix f0 ".yang" = true) :
    fileListMode fl o := by
  unfold fileListMode
  rw [hargs]
  exact hsuf

theorem fileListMode_of_stdin {fl : Flags} {o : Oracle} (hargs : fl.args = [])
    (h : (stdinStep o).2 = true) : fileListMode fl o := by
  unfold fileListMode
  rw [hargs]
  exact h

theorem stdinPre_files {fl : Flags} {o : Oracle} {f0 : String} {rest : List String}
    (hargs : fl.args = f0 :: rest) : stdinPre fl o = [] := by
  unfold stdinPre
  rw [hargs]

theorem runMain_filter {regs : Registry} {fl : Flags} {o : Oracle}
    (htrace : fl.traceP = "" ∨ o.createTraceErr = none) (p : Event → Bool)
    (h1 : p Event.traceStart = false) (h2 : p Event.traceStop = false) :
    (runMain regs fl o).events.filter p =
      (coreBody regs fl o (sortStrings (regs.map Prod.fst))).1.filter p := by
  obtain ⟨hev, -⟩ := runMain_shape regs fl o htrace
  rw [hev, List.filter_append, List.filter_append]
  have ho : (openEvs fl).filter p = [] := by
    unfold openEvs
    split
    · rfl
    · simp [List.filter_cons, h1]
  have hc : (closeEvs fl).filter p = [] := by
    unfold closeEvs
    split
    · rfl
    · simp [List.filter_cons, h2]
  rw [ho, hc]
  simp

theorem errTail_filter_isLoad {l : List String} :
    (l.map Event.errLine).filter Event.isLoad = [] :=
  List.filter_eq_nil_iff.mpr (fun a ha => by
    rcases errLine_map_shape a ha with ⟨e, rfl⟩
    simp [Event.isLoad])

theorem afterLoad_filter_isLoad {regs : Registry} {format : String} {o : Oracle}
    {pre : List Event} {files : List String} {f : Formatter}
    (hf : lookupFmt regs format = some f) :
    (afterLoad regs format o pre files).1.filter Event.isLoad =
      pre.filter Event.isLoad ++ files.map Event.readFileEv := by
  by_cases hp : o.processErrs = []
  · rw [afterLoad_ok hf hp, List.filter_append, List.filter_append,
      loadEvents_filter_isLoad]
    simp [List.filter_cons, Event.isLoad]
  · rw [afterLoad_errs hp, List.filter_append, List.filter_append,
      loadEvents_filter_isLoad, List.filter_cons]
    simp only [Event.isLoad, if_neg]
    rw [errTail_filter_isLoad]
    simp

theorem namedBody_filter_isLoad {o : Oracle} {f0 : String} {rest : List String} :
    (namedBody o f0 rest).1.filter Event.isLoad = [Event.getModuleEv f0 rest] := by
  by_cases hr : (o.getModuleRes f0 rest).2 = []
  · rw [namedBody_ok hr]
    simp [List.filter_cons, Event.isLoad]
  · rw [namedBody_errs hr, List.filter_cons]
    simp only [Event.isLoad, if_pos]
    rw [errTail_filter_isLoad]

theorem loadEvents_sub_afterLoad {regs : Registry} {format : String} {o : Oracle}
    {pre : List Event} {files : List String} {f : Formatter} {ev : Event}
    (hf : lookupFmt regs format = some f) (h : ev ∈ loadEvents o files) :
    ev ∈ (afterLoad regs format o pre files).1 := by
  by_cases hp : o.processErrs = []
  · rw [afterLoad_ok hf hp]
    simp only [List.mem_append]
    exact Or.inl (Or.inr h)
  · rw [afterLoad_errs hp]
    simp only [List.mem_append]
    exact Or.inl (Or.inr h)

/-! ### The claims -/

/-- C1: in any file-list or stdin run that passes semantic processing, the
entry sequence handed to the formatter has exactly one element per distinct
top-level module name, namely the first module record encountered with that
name, and the sequence is sorted by ascending module name regardless of how
the inputs were ordered. -/
theorem C1_entry_sequence (regs : Registry) (fl : Flags) (o : Oracle) (f : Formatter)
    (htrace : fl.traceP = "" ∨ o.createTraceErr = none) (hhelp : fl.help = false)
    (hfmt : lookupFmt regs fl.format = some f) (hmode : fileListMode fl o)
    (hproc : o.processErrs = []) :
    Event.render f.fid (mainEntries o.msModules) ∈ (runMain regs fl o).events ∧
    (mainEntries o.msModules).length = (o.msModules.map Module.name).toFinset.card ∧
    List.Sorted strLeRel ((mainEntries o.msModules).map entryName) ∧
    (∀ n ∈ o.msModules.map Module.name,
      ∃ m : Module, o.msModules.find? (fun x => x.name = n) = some m ∧
        Entry.ofModule m ∈ mainEntries o.msModules) ∧
    (∀ e ∈ mainEntries o.msModules,
      ∃ m : Module, e = Entry.ofModule m ∧
        o.msModules.find? (fun x => x.name = m.name) = some m) := by
  refine ⟨?_, length_mainEntries _, mainEntries_sorted _,
    fun n hn => mem_mainEntries_of_mem_names hn, fun e he => mem_mainEntries_elim he⟩
  refine mem_runMain_body htrace ?_
  have hsome : (lookupFmt regs fl.format).isSome = true := by rw [hfmt]; rfl
  rw [coreBody_fileList hhelp hsome hmode, afterLoad_ok hfmt hproc]
  simp

/-- Witness for C1: a concrete two-file run over a module map holding modules
named `b`, `a`, `b`. -/
theorem C1_entry_sequence_witness :
    (lookupFmt demoRegs fileFlags.format = some demoFmt ∧ fileListMode fileFlags demoOracle) ∧
    (Event.render demoFmt.fid (mainEntries demoOracle.msModules) ∈
        (runMain demoRegs fileFlags demoOracle).events ∧
      (mainEntries demoOracle.msModules).length =
        (demoOracle.msModules.map Module.name).toFinset.card ∧
      List.Sorted strLeRel ((mainEntries demoOracle.msModules).map entryName) ∧
      (∀ n ∈ demoOracle.msModules.map Module.name,
        ∃ m : Module, demoOracle.msModules.find? (fun x => x.name = n) = some m ∧
          Entry.ofModule m ∈ mainEntries demoOracle.msModules) ∧
      (∀ e ∈ mainEntries demoOracle.msModules,
        ∃ m : Module, e = Entry.ofModule m ∧
          demoOracle.msModules.find? (fun x => x.name = m.name) = some m)) :=
  ⟨⟨by decide, show goHasSuffix "b.yang" ".yang" = true by decide⟩,
    C1_entry_sequence demoRegs fileFlags demoOracle demoFmt (Or.inl rfl) rfl (by decide)
      (show goHasSuffix "b.yang" ".yang" = true by decide) rfl⟩

/-- C2: whenever the single semantic-processing call returns a non-empty error
batch, every error is written to the error stream one per line, the process
exits with status 1, and nothing is written to standard output. -/
theorem C2_process_errors_terminal (regs : Registry) (fl : Flags) (o : Oracle)
    (f : Formatter) (htrace : fl.traceP = "" ∨ o.createTraceErr = none)
    (hhelp : fl.help = false) (hfmt : lookupFmt regs fl.format = some f)
    (hmode : fileListMode fl o) (hproc : o.processErrs ≠ []) :
    (runMain regs fl o).exitCode = 1 ∧
    (∀ e ∈ o.processErrs, Event.errLine e ∈ (runMain regs fl o).events) ∧
    (∀ ev ∈ (runMain regs fl o).events, ev.isStdout = false) := by
  have hsome : (lookupFmt regs fl.format).isSome = true := by rw [hfmt]; rfl
  have hbody := @coreBody_fileList regs fl o (sortStrings (regs.map Prod.fst))
    hhelp hsome hmode
  refine ⟨?_, ?_, ?_⟩
  · obtain ⟨-, hcode⟩ := runMain_shape regs fl o htrace
    rw [hcode, hbody, afterLoad_errs hproc]
  · intro e he
    refine mem_runMain_body htrace ?_
    rw [hbody, afterLoad_errs hproc]
    simp only [List.mem_append, List.mem_cons]
    exact Or.inr (Or.inr (List.mem_map_of_mem Event.errLine he))
  · refine runMain_forall htrace _ rfl rfl ?_
    rw [hbody]
    exact afterLoad_errs_no_stdout hproc stdinPre_no_stdout

/-- Witness for C2: a concrete run whose processing call reports two errors. -/
theorem C2_process_errors_terminal_witness :
    (lookupFmt demoRegs fileFlags.format = some demoFmt ∧
      fileListMode fileFlags processErrOracle ∧ processErrOracle.processErrs ≠ []) ∧
    ((runMain demoRegs fileFlags processErrOracle).exitCode = 1 ∧
      (∀ e ∈ processErrOracle.processErrs,
        Event.errLine e ∈ (runMain demoRegs fileFlags processErrOracle).events) ∧
      (∀ ev ∈ (runMain demoRegs fileFlags processErrOracle).events, ev.isStdout = false)) :=
  ⟨⟨by decide, show goHasSuffix "b.yang" ".yang" = true by decide, by decide⟩,
    C2_process_errors_terminal demoRegs fileFlags processErrOracle demoFmt (Or.inl rfl) rfl
      (by decide) (show goHasSuffix "b.yang" ".yang" = true by decide) (by decide)⟩

/-- C3 as stated is false: in a named-module run that reaches output, the
output is written by the package-level `Write` helper with the single resolved
entry; no registered formatter render function is ever invoked, even though a
formatter named `tree` is registered and selected. -/
theorem C3_counterexample_named_mode :
    (runMain demoRegs namedFlags demoOracle).events.any Event.isStdout = true ∧
    (runMain demoRegs namedFlags demoOracle).events.filter Event.isRender = [] := by
  decide

/-- C3 amended: on file-list and stdin runs that reach output, the only write
to standard output is the selected registered formatter's render function
applied to the resolved ordered entry sequence; on named-module runs the only
write to standard output is the `Write` helper applied to the single resolved
entry, bypassing the registry. -/
theorem C3_amended_dispatch (regs : Registry) (fl : Flags) (o : Oracle) (f : Formatter)
    (htrace : fl.traceP = "" ∨ o.createTraceErr = none) (hhelp : fl.help = false)
    (hfmt : lookupFmt regs fl.format = some f) :
    (fileListMode fl o → o.processErrs = [] →
      (runMain regs fl o).events.filter Event.isStdout =
        [Event.render f.fid (mainEntries o.msModules)]) ∧
    (∀ f0 rest, fl.args = f0 :: rest → goHasSuffix f0 ".yang" = false →
      (o.getModuleRes f0 rest).2 = [] →
      (runMain regs fl o).events.filter Event.isStdout =
        [Event.writeEntry (o.getModuleRes f0 rest).1]) := by
  have hsome : (lookupFmt regs fl.format).isSome = true := by rw [hfmt]; rfl
  constructor
  · intro hmode hproc
    rw [runMain_filter htrace Event.isStdout rfl rfl,
      coreBody_fileList hhelp hsome hmode, afterLoad_ok hfmt hproc,
      List.filter_append, List.filter_append,
      List.filter_eq_nil_iff.mpr (fun a ha => by rw [stdinPre_no_stdout a ha]; simp),
      List.filter_eq_nil_iff.mpr (fun a ha => by rw [loadEvents_no_stdout a ha]; simp)]
    simp [List.filter_cons, Event.isStdout]
  · intro f0 rest hargs hsuf hok
    rw [runMain_filter htrace Event.isStdout rfl rfl,
      coreBody_named hhelp hsome hargs hsuf, namedBody_ok hok]
    simp [List.filter_cons, Event.isStdout]

/-- Witness for the amended C3 at a concrete file-list run. -/
theorem C3_amended_dispatch_witness :
    (lookupFmt demoRegs fileFlags.format = some demoFmt ∧ fileListMode fileFlags demoOracle ∧
      demoOracle.processErrs = []) ∧
    (runMain demoRegs fileFlags demoOracle).events.filter Event.isStdout =
      [Event.render demoFmt.fid (mainEntries demoOracle.msModules)] :=
  ⟨⟨by decide, show goHasSuffix "b.yang" ".yang" = true by decide, rfl⟩,
    (C3_amended_dispatch demoRegs fileFlags demoOracle demoFmt (Or.inl rfl) rfl (by decide)).1
      (show goHasSuffix "b.yang" ".yang" = true by decide) rfl⟩

/-- C4 as stated is false: when `--help` is supplied together with a `--trace`
file that cannot be created, the run prints only the creation error and exits
with status 1 — the help text is never printed and the exit status is not 0. -/
theorem C4_counterexample_trace_failure :
    (runMain demoRegs helpTraceFlags traceFailOracle).exitCode = 1 ∧
    (runMain demoRegs helpTraceFlags traceFailOracle).events =
      [Event.errLine "open trace.out: permission denied"] := by
  decide

/-- C4 amended: whenever `--help` is supplied and the trace setup does not fail
(no `--trace` flag, or the trace file is created successfully), the process
prints usage plus the sorted format listing and exits with status 0 without
attempting to load any input, regardless of every other flag or argument. -/
theorem C4_amended_help (regs : Registry) (fl : Flags) (o : Oracle)
    (hhelp : fl.help = true) (htrace : fl.traceP = "" ∨ o.createTraceErr = none) :
    (runMain regs fl o).exitCode = 0 ∧
    (∃ pre post, (runMain regs fl o).events =
      pre ++ helpEvents regs (sortStrings (regs.map Prod.fst)) ++ post) ∧
    (∀ ev ∈ (runMain regs fl o).events, ev.isLoad = false) := by
  obtain ⟨hev, hcode⟩ := runMain_shape regs fl o htrace
  have hb := @coreBody_help regs fl o (sortStrings (regs.map Prod.fst)) hhelp
  refine ⟨by rw [hcode, hb], ⟨openEvs fl, closeEvs fl, by rw [hev, hb]⟩, ?_⟩
  refine runMain_forall htrace _ rfl rfl ?_
  rw [hb]
  exact helpEvents_no_load

/-- Witness for the amended C4: `--help` with an unregistered format and a file
argument still prints help, loads nothing and exits 0. -/
theorem C4_amended_help_witness :
    helpFlags.help = true ∧
    ((runMain demoRegs helpFlags demoOracle).exitCode = 0 ∧
      (∃ pre post, (runMain demoRegs helpFlags demoOracle).events =
        pre ++ helpEvents demoRegs (sortStrings (demoRegs.map Prod.fst)) ++ post) ∧
      (∀ ev ∈ (runMain demoRegs helpFlags demoOracle).events, ev.isLoad = false)) :=
  ⟨rfl, C4_amended_help demoRegs helpFlags demoOracle rfl (Or.inl rfl)⟩

/-- C5: in file-list mode a failing file read is reported to the error stream
while every named file is still visited in order and the run proceeds to
processing and output; in stdin mode a read or parse failure of standard input
is terminal, with the error written, exit status 1 and no output. -/
theorem C5_partial_failure (regs : Registry) (fl : Flags) (o : Oracle) (f : Formatter)
    (htrace : fl.traceP = "" ∨ o.createTraceErr = none) (hhelp : fl.help = false)
    (hfmt : lookupFmt regs fl.format = some f) :
    (∀ f0 rest, fl.args = f0 :: rest → goHasSuffix f0 ".yang" = true →
      (∀ n e, n ∈ fl.args → o.readErr n = some e →
        Event.errLine e ∈ (runMain regs fl o).events) ∧
      (runMain regs fl o).events.filter Event.isLoad = fl.args.map Event.readFileEv ∧
      (o.processErrs = [] → (runMain regs fl o).exitCode = 0 ∧
        Event.render f.fid (mainEntries o.msModules) ∈ (runMain regs fl o).events)) ∧
    (fl.args = [] → (stdinStep o).2 = false →
      (runMain regs fl o).exitCode = 1 ∧
      (∀ ev ∈ (stdinStep o).1, ev ∈ (runMain regs fl o).events) ∧
      (∀ ev ∈ (runMain regs fl o).events, ev.isStdout = false)) := by
  have hsome : (lookupFmt regs fl.format).isSome = true := by rw [hfmt]; rfl
  constructor
  · intro f0 rest hargs hsuf
    have hmode : fileListMode fl o := fileListMode_of_files hargs hsuf
    have hbody := @coreBody_fileList regs fl o (sortStrings (regs.map Prod.fst))
      hhelp hsome hmode
    refine ⟨?_, ?_, ?_⟩
    · intro n e hn he
      refine mem_runMain_body htrace ?_
      rw [hbody]
      exact loadEvents_sub_afterLoad hfmt (loadEvents_errLine_of_readErr hn he)
    · rw [runMain_filter htrace Event.isLoad rfl rfl, hbody,
        afterLoad_filter_isLoad hfmt, stdinPre_files hargs]
      rfl
    · intro hproc
      obtain ⟨-, hcode⟩ := runMain_shape regs fl o htrace
      refine ⟨by rw [hcode, hbody, afterLoad_ok hfmt hproc], ?_⟩
      refine mem_runMain_body htrace ?_
      rw [hbody, afterLoad_ok hfmt hproc]
      simp
  · intro hargs hfail
    obtain ⟨hev, hcode⟩ := runMain_shape regs fl o htrace
    have hbody : coreBody regs fl o (sortStrings (regs.map Prod.fst)) =
        ((stdinStep o).1, 1) := by
      rw [coreBody_stdin hhelp hsome hargs, fileListBody_stdin_fail hfail]
    refine ⟨by rw [hcode, hbody], ?_, ?_⟩
    · intro ev hev2
      refine mem_runMain_body htrace ?_
      rw [hbody]
      exact hev2
    · refine runMain_forall htrace _ rfl rfl ?_
      rw [hbody]
      exact stdinStep_no_stdout

/-- Witness for C5: a concrete two-file run in which both reads fail; the
errors are reported, both files are visited, and output still happens. -/
theorem C5_partial_failure_witness :
    (lookupFmt demoRegs fileFlags.format = some demoFmt ∧
      fileFlags.args = ["b.yang", "a.yang"]) ∧
    ((∀ n e, n ∈ fileFlags.args → readFailOracle.readErr n = some e →
        Event.errLine e ∈ (runMain demoRegs fileFlags readFailOracle).events) ∧
      (runMain demoRegs fileFlags readFailOracle).events.filter Event.isLoad =
        fileFlags.args.map Event.readFileEv ∧
      (readFailOracle.processErrs = [] →
        (runMain demoRegs fileFlags readFailOracle).exitCode = 0 ∧
        Event.render demoFmt.fid (mainEntries readFailOracle.msModules) ∈
          (runMain demoRegs fileFlags readFailOracle).events)) :=
  ⟨⟨by decide, rfl⟩,
    (C5_partial_failure demoRegs fileFlags readFailOracle demoFmt (Or.inl rfl) rfl
      (by decide)).1 "b.yang" ["a.yang"] rfl
      (show goHasSuffix "b.yang" ".yang" = true by decide)⟩

/-- C6: the input mode is decided once from the positional arguments — a
non-empty list whose first element does not end in `.yang` is a named-module
request (whose resolution falls back to the default `MODULES` file and is
terminal on failure), an empty list reads standard input as the single
anonymous source, and otherwise each named file is read in order. -/
theorem C6_input_mode (regs : Registry) (fl : Flags) (o : Oracle) (f : Formatter)
    (htrace : fl.traceP = "" ∨ o.createTraceErr = none) (hhelp : fl.help = false)
    (hfmt : lookupFmt regs fl.format = some f) :
    (∀ f0 rest, fl.args = f0 :: rest → goHasSuffix f0 ".yang" = false →
      (runMain regs fl o).events.filter Event.isLoad = [Event.getModuleEv f0 rest] ∧
      ((o.getModuleRes f0 rest).2 ≠ [] → (runMain regs fl o).exitCode = 1 ∧
        ∀ e ∈ (o.getModuleRes f0 rest).2, Event.errLine e ∈ (runMain regs fl o).events)) ∧
    (fl.args = [] →
      (runMain regs fl o).events.filter Event.isLoad = [Event.readStdin]) ∧
    (∀ f0 rest, fl.args = f0 :: rest → goHasSuffix f0 ".yang" = true →
      (runMain regs fl o).events.filter Event.isLoad = fl.args.map Event.readFileEv) ∧
    (∀ auxDefs defaultDefs : String → Option Module, ∀ n : String, ∀ m : Module,
      (auxDefs n = some m → getModuleSpec auxDefs defaultDefs n = (Entry.ofModule m, [])) ∧
      (auxDefs n = none → defaultDefs n = some m →
        getModuleSpec auxDefs defaultDefs n = (Entry.ofModule m, [])) ∧
      (auxDefs n = none → defaultDefs n = none →
        (getModuleSpec auxDefs defaultDefs n).2 ≠ [])) := by
  have hsome : (lookupFmt regs fl.format).isSome = true := by rw [hfmt]; rfl
  refine ⟨?_, ?_, ?_, ?_⟩
  · intro f0 rest hargs hsuf
    have hbody := @coreBody_named regs fl o (sortStrings (regs.map Prod.fst)) f0 rest
      hhelp hsome hargs hsuf
    constructor
    · rw [runMain_filter htrace Event.isLoad rfl rfl, hbody, namedBody_filter_isLoad]
    · intro herr
      obtain ⟨-, hcode⟩ := runMain_shape regs fl o htrace
      refine ⟨by rw [hcode, hbody, namedBody_errs herr], ?_⟩
      intro e he
      refine mem_runMain_body htrace ?_
      rw [hbody, namedBody_errs herr]
      exact List.mem_cons_of_mem _ (List.mem_map_of_mem Event.errLine he)
  · intro hargs
    rw [runMain_filter htrace Event.isLoad rfl rfl, coreBody_stdin hhelp hsome hargs]
    by_cases hok : (stdinStep o).2 = true
    · rw [fileListBody_stdin_ok hok, afterLoad_filter_isLoad hfmt, stdinStep_filter_isLoad]
      rfl
    · rw [fileListBody_stdin_fail (by simpa using hok), stdinStep_filter_isLoad]
  · intro f0 rest hargs hsuf
    have hmode : fileListMode fl o := fileListMode_of_files hargs hsuf
    rw [runMain_filter htrace Event.isLoad rfl rfl,
      @coreBody_fileList regs fl o (sortStrings (regs.map Prod.fst)) hhelp hsome hmode,
      afterLoad_filter_isLoad hfmt, stdinPre_files hargs]
    rfl
  · intro auxDefs defaultDefs n m
    refine ⟨?_, ?_, ?_⟩
    · intro h
      simp [getModuleSpec, h]
    · intro h1 h2
      simp [getModuleSpec, h1, h2]
    · intro h1 h2
      simp [getModuleSpec, h1, h2]

/-- Witness for C6 at a concrete named-module run. -/
theorem C6_input_mode_witness :
    (namedFlags.args = ["mymod", "dep.yang"] ∧ goHasSuffix "mymod" ".yang" = false) ∧
    (runMain demoRegs namedFlags demoOracle).events.filter Event.isLoad =
      [Event.getModuleEv "mymod" ["dep.yang"]] :=
  ⟨⟨rfl, by decide⟩,
    ((C6_input_mode demoRegs namedFlags demoOracle demoFmt (Or.inl rfl) rfl (by decide)).1
      "mymod" ["dep.yang"] rfl (show goHasSuffix "mymod" ".yang" = false by decide)).1⟩

/-- C7: an unregistered format name is rejected before any input is read, with
the sorted list of registered names in the message and exit status 1; a
registered name never fails for format-lookup reasons — the dispatch-time
lookup cannot hit a missing entry. -/
theorem C7_format_lookup (regs : Registry) (fl : Flags) (o : Oracle)
    (htrace : fl.traceP = "" ∨ o.createTraceErr = none) :
    (fl.help = false → lookupFmt regs fl.format = none →
      (runMain regs fl o).exitCode = 1 ∧
      Event.errWrite (invalidFormatMsg fl.format (sortStrings (regs.map Prod.fst))) ∈
        (runMain regs fl o).events ∧
      (∀ ev ∈ (runMain regs fl o).events, ev.isLoad = false)) ∧
    (∀ f, lookupFmt regs fl.format = some f →
      Event.panicEv ∉ (runMain regs fl o).events) := by
  constructor
  · intro hhelp hnone
    obtain ⟨hev, hcode⟩ := runMain_shape regs fl o htrace
    have hb := @coreBody_badFormat regs fl o (sortStrings (regs.map Prod.fst)) hhelp hnone
    refine ⟨by rw [hcode, hb], ?_, ?_⟩
    · refine mem_runMain_body htrace ?_
      rw [hb]
      simp
    · refine runMain_forall htrace _ rfl rfl ?_
      rw [hb]
      intro ev hev2
      rcases List.mem_singleton.mp hev2 with rfl
      rfl
  · intro f hf
    exact runMain_no_panic (by rw [hf]; rfl)

/-- Witness for C7: requesting the unregistered format `bogus`. -/
theorem C7_format_lookup_witness :
    (badFmtFlags.help = false ∧ lookupFmt demoRegs badFmtFlags.format = none) ∧
    ((runMain demoRegs badFmtFlags demoOracle).exitCode = 1 ∧
      Event.errWrite (invalidFormatMsg badFmtFlags.format
        (sortStrings (demoRegs.map Prod.fst))) ∈
          (runMain demoRegs badFmtFlags demoOracle).events ∧
      (∀ ev ∈ (runMain demoRegs badFmtFlags demoOracle).events, ev.isLoad = false)) :=
  ⟨⟨rfl, by decide⟩,
    (C7_format_lookup demoRegs badFmtFlags demoOracle (Or.inl rfl)).1 rfl (by decide)⟩

/-- C8: once tracing has started, `trace.Stop` runs on every exit path — it is
the final event of the run. -/
theorem C8_trace_stop_on_exit (regs : Registry) (fl : Flags) (o : Oracle)
    (htraceP : fl.traceP ≠ "") (hok : o.createTraceErr = none) :
    Event.traceStart ∈ (runMain regs fl o).events ∧
    (runMain regs fl o).events.getLast? = some Event.traceStop := by
  have hev : (runMain regs fl o).events =
      Event.traceStart ::
        (coreBody regs fl o (sortStrings (regs.map Prod.fst))).1 ++ [Event.traceStop] := by
    simp [runMain, htraceP, hok]
  rw [hev]
  exact ⟨by simp, List.getLast?_concat _⟩

/-- Witness for C8: a traced stdin run ends in `trace.Stop`. -/
theorem C8_trace_stop_on_exit_witness :
    (traceFlags.traceP ≠ "" ∧ demoOracle.createTraceErr = none) ∧
    (Event.traceStart ∈ (runMain demoRegs traceFlags demoOracle).events ∧
      (runMain demoRegs traceFlags demoOracle).events.getLast? = some Event.traceStop) :=
  ⟨⟨by decide, rfl⟩, C8_trace_stop_on_exit demoRegs traceFlags demoOracle (by decide) rfl⟩

/-- C9: registration is keyed by name with silent overwrite — after registering
`f1` and then `f2` with the same name, the registry maps that name to `f2`, and
a lookup of the name of any just-registered formatter returns it. -/
theorem C9_register_last_wins (regs : Registry) (f1 f2 : Formatter)
    (h : f1.name = f2.name) :
    lookupFmt (register (register regs f1) f2) f1.name = some f2 ∧
    lookupFmt (register regs f2) f2.name = some f2 := by
  constructor
  · rw [h]
    exact lookupFmt_register_self (register regs f1) f2
  · exact lookupFmt_register_self regs f2

/-- Witness for C9: two formatters both named `tree`. -/
theorem C9_register_last_wins_witness :
    demoFmt.name = demoFmt2.name ∧
    (lookupFmt (register (register [] demoFmt) demoFmt2) demoFmt.name = some demoFmt2 ∧
      lookupFmt (register [] demoFmt2) demoFmt2.name = some demoFmt2) :=
  ⟨rfl, C9_register_last_wins [] demoFmt demoFmt2 rfl⟩

/-- C10: a file-list run in which every read fails (and the model set stays
empty) is not an error — processing still runs, and with no processing errors
the formatter is invoked on the empty entry sequence with exit status 0. -/
theorem C10_empty_model_set_ok (regs : Registry) (fl : Flags) (o : Oracle) (f : Formatter)
    (f0 : String) (rest : List String)
    (htrace : fl.traceP = "" ∨ o.createTraceErr = none) (hhelp : fl.help = false)
    (hfmt : lookupFmt regs fl.format = some f) (hargs : fl.args = f0 :: rest)
    (hsuf : goHasSuffix f0 ".yang" = true)
    (hfail : ∀ n ∈ fl.args, (o.readErr n).isSome = true)
    (hmods : o.msModules = []) (hproc : o.processErrs = []) :
    (runMain regs fl o).exitCode = 0 ∧
    Event.processEv ∈ (runMain regs fl o).events ∧
    Event.render f.fid [] ∈ (runMain regs fl o).events := by
  have hsome : (lookupFmt regs fl.format).isSome = true := by rw [hfmt]; rfl
  have hmode : fileListMode fl o := fileListMode_of_files hargs hsuf
  have hbody := @coreBody_fileList regs fl o (sortStrings (regs.map Prod.fst))
    hhelp hsome hmode
  obtain ⟨-, hcode⟩ := runMain_shape regs fl o htrace
  have hren : mainEntries o.msModules = [] := by rw [hmods]; rfl
  refine ⟨by rw [hcode, hbody, afterLoad_ok hfmt hproc], ?_, ?_⟩
  · refine mem_runMain_body htrace ?_
    rw [hbody, afterLoad_ok hfmt hproc]
    simp
  · refine mem_runMain_body htrace ?_
    rw [hbody, afterLoad_ok hfmt hproc, hren]
    simp

/-- Witness for C10: both reads fail, the model set is empty, the run renders
the empty sequence and exits 0. -/
theorem C10_empty_model_set_ok_witness :
    (lookupFmt demoRegs fileFlags.format = some demoFmt ∧
      (∀ n ∈ fileFlags.args, (readFailOracle.readErr n).isSome = true) ∧
      readFailOracle.msModules = [] ∧ readFailOracle.processErrs = []) ∧
    ((runMain demoRegs fileFlags readFailOracle).exitCode = 0 ∧
      Event.processEv ∈ (runMain demoRegs fileFlags readFailOracle).events ∧
      Event.render demoFmt.fid [] ∈ (runMain demoRegs fileFlags readFailOracle).events) :=
  ⟨⟨by decide, by decide, rfl, rfl⟩,
    C10_empty_model_set_ok demoRegs fileFlags readFailOracle demoFmt "b.yang" ["a.yang"]
      (Or.inl rfl) rfl (by decide) rfl (show goHasSuffix "b.yang" ".yang" = true by decide)
      (by decide) rfl rfl⟩

end Goyang
